import Mathlib

/-!
Verification development for the PartitionAlloc core of this repository
(`base/allocator/partition_allocator/partition_root.h` and
`partition_alloc.cc`).

The bucket-table machinery (`BucketIndexLookup`, `InitBucketSizes`,
`GetIndex`, `OrderIndexShift`, `OrderSubIndexMask`) is embedded directly
from `partition_root.h`.  Numeric configuration constants live in
`partition_alloc_constants.h`, which is not part of the sources here;
they are modelled from the spec (and pinned by the static asserts in
`partition_alloc.cc`, e.g. `kMaxBucketed == 983040` and
`kSmallestBucket == kAlignment`).

Machine integers are modelled as `Nat` with explicit reductions
`% 2 ^ kBitsPerSizeT` at the points where the C++ code can wrap.
-/

/-- Modelled from the spec: bit width of `size_t` on the 64-bit
configuration (`PA_HAS_64_BITS_POINTERS`), asserted as
`kBitsPerSizeT == 64` in `partition_root.h`. -/
def kBitsPerSizeT : Nat := 64

/-- Modelled from the spec: `BucketsPerOrder` is `2^3 = 8`
(`kNumBucketsPerOrderBits` in `partition_alloc_constants.h`, which is
absent from the sources). -/
def kNumBucketsPerOrderBits : Nat := 3

/-- Modelled from the spec: `kNumBucketsPerOrder = 1 << kNumBucketsPerOrderBits`. -/
def kNumBucketsPerOrder : Nat := 1 <<< kNumBucketsPerOrderBits

/-- Modelled from the spec: the smallest bucketed order.  The spec allows
`SmallestBucket = Alignment` to be 8 or 16; we take 8, i.e. order 4
(`2^(4-1) = 8`).  All claims proved below hold for either choice. -/
def kMinBucketedOrder : Nat := 4

/-- Modelled from the spec: the largest bucketed order, 20, so that
`kMaxBucketed = 2^19 + 7 * 2^16 = 983040` exactly as required by the
static assert in `partition_alloc.cc`. -/
def kMaxBucketedOrder : Nat := 20

/-- Modelled from the spec: `kNumBucketedOrders = kMaxBucketedOrder - kMinBucketedOrder + 1`. -/
def kNumBucketedOrders : Nat := kMaxBucketedOrder - kMinBucketedOrder + 1

/-- Modelled from the spec: `kNumBuckets = kNumBucketedOrders * kNumBucketsPerOrder`. -/
def kNumBuckets : Nat := kNumBucketedOrders * kNumBucketsPerOrder

/-- Modelled from the spec: `kSmallestBucket = 1 << (kMinBucketedOrder - 1)`. -/
def kSmallestBucket : Nat := 1 <<< (kMinBucketedOrder - 1)

/-- Modelled from the spec: spacing of the buckets in the largest
bucketed order. -/
def kMaxBucketSpacing : Nat := 1 <<< (kMaxBucketedOrder - 1 - kNumBucketsPerOrderBits)

/-- Modelled from the spec: `MaxBucketed`, the largest size served from a
normal bucket; equals 983040 (checked by `static_assert` in
`partition_alloc.cc`). -/
def kMaxBucketed : Nat := (1 <<< (kMaxBucketedOrder - 1)) + (kNumBucketsPerOrder - 1) * kMaxBucketSpacing

/-- Modelled from the spec: `MaxDirectMapped()`, the security cap on
request sizes; the spec requires it to be at most
`2^31 + AllocationGranularity`, we take `2^31`. -/
def MaxDirectMapped : Nat := 1 <<< 31

/-- Modelled from the spec: `SystemPageSize()` (OS page, power of two);
we take the common 4096. -/
def SystemPageSize : Nat := 4096

/-- Fuel-based bit length: number of binary digits of `n`, computed with
`fuel` division steps.  Used to model `base::bits::CountLeadingZeroBitsSizeT`
(a compiler intrinsic; `base/bits.h` is absent from the sources). -/
def bitLenAux : Nat → Nat → Nat
  | 0, _ => 0
  | fuel + 1, n => if n = 0 then 0 else bitLenAux fuel (n / 2) + 1

/-- Bit length of a `size_t` value (correct for all `n < 2 ^ 64`). -/
def bitLen (n : Nat) : Nat := bitLenAux kBitsPerSizeT n

/-- Modelled from the spec: `base::bits::CountLeadingZeroBitsSizeT(n)`,
the count of leading zero bits of `n` as a 64-bit value (64 for `n = 0`). -/
def CountLeadingZeroBitsSizeT (n : Nat) : Nat := kBitsPerSizeT - bitLen n

/-- From `partition_root.h` (`OrderIndexShift`):
shift that brings the `kNumBucketsPerOrderBits` bits after the most
significant bit of a size into the low positions. -/
def OrderIndexShift (order : Nat) : Nat :=
  if order < kNumBucketsPerOrderBits + 1 then 0
  else order - (kNumBucketsPerOrderBits + 1)

/-- From `partition_root.h` (`OrderSubIndexMask`): mask of the bits of a
size below the order-index bits.  `static_cast<size_t>(-1)` is `2^64 - 1`. -/
def OrderSubIndexMask (order : Nat) : Nat :=
  if order = kBitsPerSizeT then (2 ^ kBitsPerSizeT - 1) >>> (kNumBucketsPerOrderBits + 1)
  else ((1 <<< order) - 1) >>> (kNumBucketsPerOrderBits + 1)

/-- From `partition_root.h` (`InitBucketSizes`, inner loop over
`j < kNumBucketsPerOrder`): emits `current_size` and advances it by
`current_increment` at each step; returns the emitted sizes together
with the final `current_size`. -/
def initBucketSizesInner : Nat → Nat → Nat → List Nat × Nat
  | 0, current_size, _ => ([], current_size)
  | j + 1, current_size, current_increment =>
    let rest := initBucketSizesInner j (current_size + current_increment) current_increment
    (current_size :: rest.1, rest.2)

/-- From `partition_root.h` (`InitBucketSizes`, outer loop over
`i < kNumBucketedOrders`): after each order the increment is doubled
(`current_increment <<= 1`). -/
def initBucketSizesOuter : Nat → Nat → Nat → List Nat
  | 0, _, _ => []
  | i + 1, current_size, current_increment =>
    let inner := initBucketSizesInner kNumBucketsPerOrder current_size current_increment
    inner.1 ++ initBucketSizesOuter i inner.2 (current_increment <<< 1)

/-- From `partition_root.h` (`InitBucketSizes`): the `bucket_sizes_`
array, starting at `kSmallestBucket` with initial increment
`kSmallestBucket >> kNumBucketsPerOrderBits`. -/
def bucket_sizes_ : List Nat :=
  initBucketSizesOuter kNumBucketedOrders kSmallestBucket (kSmallestBucket >>> kNumBucketsPerOrderBits)

/-- From `partition_root.h` (`BucketIndexLookup` constructor):
`while (bucket_sizes_[valid_bucket_index] % kSmallestBucket) valid_bucket_index++;`
The C++ loop is unbounded; it always terminates within `kNumBuckets`
steps because the last bucketed order only contains multiples of
`kSmallestBucket`, so we run it with that much fuel. -/
def skipToValid : Nat → Nat → Nat
  | 0, valid_bucket_index => valid_bucket_index
  | fuel + 1, valid_bucket_index =>
    if bucket_sizes_.getD valid_bucket_index 0 % kSmallestBucket = 0 then valid_bucket_index
    else skipToValid fuel (valid_bucket_index + 1)

/-- From `partition_root.h` (`BucketIndexLookup` constructor, inner loop
over `j < kNumBucketsPerOrder` for a bucketed order): each entry skips
forward to the next bucket whose size is a multiple of
`kSmallestBucket`, and `bucket_index` advances by one per entry. -/
def bucketedOrderEntries : Nat → Nat → List Nat × Nat
  | 0, bucket_index => ([], bucket_index)
  | j + 1, bucket_index =>
    let valid := skipToValid kNumBuckets bucket_index
    let rest := bucketedOrderEntries j (bucket_index + 1)
    (valid :: rest.1, rest.2)

/-- From `partition_root.h` (`BucketIndexLookup` constructor): the eight
lookup entries for one order.  Orders below `kMinBucketedOrder` map to
bucket 0, orders above `kMaxBucketedOrder` map to the sentinel
(`kNumBuckets`); bucketed orders use `bucketedOrderEntries`. -/
def lookupEntriesForOrder (order : Nat) (bucket_index : Nat) : List Nat × Nat :=
  if order < kMinBucketedOrder then
    (List.replicate kNumBucketsPerOrder 0, bucket_index)
  else if order > kMaxBucketedOrder then
    (List.replicate kNumBucketsPerOrder kNumBuckets, bucket_index)
  else
    bucketedOrderEntries kNumBucketsPerOrder bucket_index

/-- From `partition_root.h` (`BucketIndexLookup` constructor, outer loop
over `order <= kBitsPerSizeT`), threading `bucket_index` through the
orders. -/
def lookupOrders : Nat → Nat → Nat → List Nat
  | 0, _, _ => []
  | remaining + 1, order, bucket_index =>
    let e := lookupEntriesForOrder order bucket_index
    e.1 ++ lookupOrders remaining (order + 1) e.2

/-- From `partition_root.h` (`BucketIndexLookup` constructor): the flat
`bucket_index_lookup_` array of `(kBitsPerSizeT + 1) * kNumBucketsPerOrder + 1`
entries; the final entry is the sentinel, hit by sizes that overflow to a
non-existent order. -/
def bucket_index_lookup_ : List Nat :=
  lookupOrders (kBitsPerSizeT + 1) 0 0 ++ [kNumBuckets]

/-- From `partition_root.h` (`BucketIndexLookup::GetIndex`).  The C++
code reads the constexpr tables `kOrderIndexShift` / `kOrderSubIndexMask`,
which tabulate `OrderIndexShift` / `OrderSubIndexMask` at orders
`0..kBitsPerSizeT`; we apply the functions directly.  `!!sub_order_index`
is 1 exactly when the sub-order bits are non-zero. -/
def GetIndex (size : Nat) : Nat :=
  let order := kBitsPerSizeT - CountLeadingZeroBitsSizeT size
  let order_index := (size >>> OrderIndexShift order) &&& (kNumBucketsPerOrder - 1)
  let sub_order_index := size &&& OrderSubIndexMask order
  bucket_index_lookup_.getD
    ((order <<< kNumBucketsPerOrderBits) + order_index +
      (if sub_order_index ≠ 0 then 1 else 0)) 0

/-- From `partition_root.h` (`PartitionRoot::SizeToBucketIndex`): simply
`BucketIndexLookup::GetIndex`. -/
def SizeToBucketIndex (size : Nat) : Nat := GetIndex size

/-- Literal form of `bucket_sizes_` (proved equal below); used so that
the finite table facts can be checked by `decide` without re-running the
generating loops at every step. -/
def bucketSizesTable : List Nat := [
  8, 9, 10, 11, 12, 13, 14, 15, 16, 18,
  20, 22, 24, 26, 28, 30, 32, 36, 40, 44,
  48, 52, 56, 60, 64, 72, 80, 88, 96, 104,
  112, 120, 128, 144, 160, 176, 192, 208, 224, 240,
  256, 288, 320, 352, 384, 416, 448, 480, 512, 576,
  640, 704, 768, 832, 896, 960, 1024, 1152, 1280, 1408,
  1536, 1664, 1792, 1920, 2048, 2304, 2560, 2816, 3072, 3328,
  3584, 3840, 4096, 4608, 5120, 5632, 6144, 6656, 7168, 7680,
  8192, 9216, 10240, 11264, 12288, 13312, 14336, 15360, 16384, 18432,
  20480, 22528, 24576, 26624, 28672, 30720, 32768, 36864, 40960, 45056,
  49152, 53248, 57344, 61440, 65536, 73728, 81920, 90112, 98304, 106496,
  114688, 122880, 131072, 147456, 163840, 180224, 196608, 212992, 229376, 245760,
  262144, 294912, 327680, 360448, 393216, 425984, 458752, 491520, 524288, 589824,
  655360, 720896, 786432, 851968, 917504, 983040]

/-- Literal form of `bucket_index_lookup_` (proved equal below). -/
def bucketLookupTable : List Nat := [
  0, 0, 0, 0, 0, 0, 0, 0, 0, 0, 0, 0, 0, 0, 0, 0,
  0, 0, 0, 0, 0, 0, 0, 0, 0, 0, 0, 0, 0, 0, 0, 0,
  0, 8, 8, 8, 8, 8, 8, 8, 8, 12, 12, 12, 12, 16, 16, 16,
  16, 18, 18, 20, 20, 22, 22, 24, 24, 25, 26, 27, 28, 29, 30, 31,
  32, 33, 34, 35, 36, 37, 38, 39, 40, 41, 42, 43, 44, 45, 46, 47,
  48, 49, 50, 51, 52, 53, 54, 55, 56, 57, 58, 59, 60, 61, 62, 63,
  64, 65, 66, 67, 68, 69, 70, 71, 72, 73, 74, 75, 76, 77, 78, 79,
  80, 81, 82, 83, 84, 85, 86, 87, 88, 89, 90, 91, 92, 93, 94, 95,
  96, 97, 98, 99, 100, 101, 102, 103, 104, 105, 106, 107, 108, 109, 110, 111,
  112, 113, 114, 115, 116, 117, 118, 119, 120, 121, 122, 123, 124, 125, 126, 127,
  128, 129, 130, 131, 132, 133, 134, 135, 136, 136, 136, 136, 136, 136, 136, 136,
  136, 136, 136, 136, 136, 136, 136, 136, 136, 136, 136, 136, 136, 136, 136, 136,
  136, 136, 136, 136, 136, 136, 136, 136, 136, 136, 136, 136, 136, 136, 136, 136,
  136, 136, 136, 136, 136, 136, 136, 136, 136, 136, 136, 136, 136, 136, 136, 136,
  136, 136, 136, 136, 136, 136, 136, 136, 136, 136, 136, 136, 136, 136, 136, 136,
  136, 136, 136, 136, 136, 136, 136, 136, 136, 136, 136, 136, 136, 136, 136, 136,
  136, 136, 136, 136, 136, 136, 136, 136, 136, 136, 136, 136, 136, 136, 136, 136,
  136, 136, 136, 136, 136, 136, 136, 136, 136, 136, 136, 136, 136, 136, 136, 136,
  136, 136, 136, 136, 136, 136, 136, 136, 136, 136, 136, 136, 136, 136, 136, 136,
  136, 136, 136, 136, 136, 136, 136, 136, 136, 136, 136, 136, 136, 136, 136, 136,
  136, 136, 136, 136, 136, 136, 136, 136, 136, 136, 136, 136, 136, 136, 136, 136,
  136, 136, 136, 136, 136, 136, 136, 136, 136, 136, 136, 136, 136, 136, 136, 136,
  136, 136, 136, 136, 136, 136, 136, 136, 136, 136, 136, 136, 136, 136, 136, 136,
  136, 136, 136, 136, 136, 136, 136, 136, 136, 136, 136, 136, 136, 136, 136, 136,
  136, 136, 136, 136, 136, 136, 136, 136, 136, 136, 136, 136, 136, 136, 136, 136,
  136, 136, 136, 136, 136, 136, 136, 136, 136, 136, 136, 136, 136, 136, 136, 136,
  136, 136, 136, 136, 136, 136, 136, 136, 136, 136, 136, 136, 136, 136, 136, 136,
  136, 136, 136, 136, 136, 136, 136, 136, 136, 136, 136, 136, 136, 136, 136, 136,
  136, 136, 136, 136, 136, 136, 136, 136, 136, 136, 136, 136, 136, 136, 136, 136,
  136, 136, 136, 136, 136, 136, 136, 136, 136, 136, 136, 136, 136, 136, 136, 136,
  136, 136, 136, 136, 136, 136, 136, 136, 136, 136, 136, 136, 136, 136, 136, 136,
  136, 136, 136, 136, 136, 136, 136, 136, 136, 136, 136, 136, 136, 136, 136, 136,
  136, 136, 136, 136, 136, 136, 136, 136, 136]

set_option maxRecDepth 100000

theorem bucket_sizes_eq_table : bucket_sizes_ = bucketSizesTable := by decide

theorem bucket_lookup_eq_table : bucket_index_lookup_ = bucketLookupTable := by decide

/-! ### Elementary facts about the fuel-based bit length -/

theorem bitLenAux_zero (fuel : Nat) : bitLenAux fuel 0 = 0 := by
  cases fuel <;> simp [bitLenAux]

theorem bitLenAux_le (fuel : Nat) : ∀ n, bitLenAux fuel n ≤ fuel := by
  induction fuel with
  | zero => intro n; simp [bitLenAux]
  | succ f ih =>
    intro n
    simp only [bitLenAux]
    split
    · exact Nat.zero_le _
    · exact Nat.succ_le_succ (ih _)

theorem bitLen_le (n : Nat) : bitLen n ≤ kBitsPerSizeT := bitLenAux_le kBitsPerSizeT n

theorem lt_two_pow_bitLenAux (fuel : Nat) :
    ∀ n, n < 2 ^ fuel → n < 2 ^ bitLenAux fuel n := by
  induction fuel with
  | zero => intro n h; simpa [bitLenAux] using h
  | succ f ih =>
    intro n h
    simp only [bitLenAux]
    split
    · simp [*]
    · rename_i hn
      have hd : n / 2 < 2 ^ f := by
        rw [Nat.div_lt_iff_lt_mul (by norm_num)]
        calc n < 2 ^ (f + 1) := h
        _ = 2 ^ f * 2 := by rw [Nat.pow_succ]
      have hih := ih (n / 2) hd
      have hmod : n % 2 < 2 := Nat.mod_lt _ (by norm_num)
      have hsplit : n = 2 * (n / 2) + n % 2 := (Nat.div_add_mod n 2).symm
      calc n = 2 * (n / 2) + n % 2 := hsplit
      _ < 2 * (2 ^ bitLenAux f (n / 2)) := by omega
      _ = 2 ^ (bitLenAux f (n / 2) + 1) := by rw [Nat.pow_succ]; ring

theorem bitLen_lt (n : Nat) (h : n < 2 ^ kBitsPerSizeT) : n < 2 ^ bitLen n :=
  lt_two_pow_bitLenAux kBitsPerSizeT n h

theorem two_pow_pred_le_bitLenAux (fuel : Nat) :
    ∀ n, n ≠ 0 → n < 2 ^ fuel → 2 ^ (bitLenAux fuel n - 1) ≤ n := by
  induction fuel with
  | zero => intro n hn h; exact absurd (by omega) hn
  | succ f ih =>
    intro n hn h
    simp only [bitLenAux, if_neg hn]
    by_cases hd : n / 2 = 0
    · simp only [hd, bitLenAux_zero]
      simpa using Nat.one_le_iff_ne_zero.mpr hn
    · have hdf : n / 2 < 2 ^ f := by
        rw [Nat.div_lt_iff_lt_mul (by norm_num)]
        calc n < 2 ^ (f + 1) := h
        _ = 2 ^ f * 2 := by rw [Nat.pow_succ]
      have hih := ih (n / 2) hd hdf
      have hk : 1 ≤ bitLenAux f (n / 2) := by
        cases f with
        | zero => exact absurd (by omega : n / 2 < 1) (by omega)
        | succ g => simp only [bitLenAux, if_neg hd]; omega
      have h2 : 2 ^ (bitLenAux f (n / 2) - 1) * 2 ≤ n / 2 * 2 :=
        Nat.mul_le_mul_right 2 hih
      have h3 : 2 ^ (bitLenAux f (n / 2) - 1) * 2 = 2 ^ bitLenAux f (n / 2) := by
        rw [← Nat.pow_succ, Nat.succ_eq_add_one, Nat.sub_add_cancel hk]
      have h4 : n / 2 * 2 ≤ n := by omega
      simpa [h3, Nat.add_sub_cancel] using le_trans (le_of_eq h3.symm) (le_trans h2 h4)

theorem two_pow_pred_le (n : Nat) (hn : n ≠ 0) (h : n < 2 ^ kBitsPerSizeT) :
    2 ^ (bitLen n - 1) ≤ n :=
  two_pow_pred_le_bitLenAux kBitsPerSizeT n hn h

theorem bitLen_pos (n : Nat) (hn : n ≠ 0) : 1 ≤ bitLen n := by
  show 1 ≤ bitLenAux kBitsPerSizeT n
  simp only [kBitsPerSizeT, bitLenAux, if_neg hn]
  omega

theorem bitLen_mono (n m : Nat) (hnm : n ≤ m) (hm : m < 2 ^ kBitsPerSizeT) :
    bitLen n ≤ bitLen m := by
  by_cases hn : n = 0
  · simp [hn, bitLen, bitLenAux_zero]
  by_contra hc
  push_neg at hc
  have h1 : 2 ^ (bitLen n - 1) ≤ n := two_pow_pred_le n hn (lt_of_le_of_lt hnm hm)
  have h2 : m < 2 ^ bitLen m := bitLen_lt m hm
  have h3 : 2 ^ bitLen m ≤ 2 ^ (bitLen n - 1) :=
    Nat.pow_le_pow_right (by norm_num) (by omega)
  omega

/-! ### Characterization of the flat lookup key computed by `GetIndex` -/

/-- The flat index into `bucket_index_lookup_` computed by `GetIndex`,
with the order written as `bitLen`. -/
def keyOf (n : Nat) : Nat :=
  (bitLen n <<< kNumBucketsPerOrderBits) +
    ((n >>> OrderIndexShift (bitLen n)) &&& (kNumBucketsPerOrder - 1)) +
    (if n &&& OrderSubIndexMask (bitLen n) ≠ 0 then 1 else 0)

theorem order_eq_bitLen (n : Nat) :
    kBitsPerSizeT - CountLeadingZeroBitsSizeT n = bitLen n := by
  unfold CountLeadingZeroBitsSizeT
  exact Nat.sub_sub_self (bitLen_le n)

theorem GetIndex_eq_keyOf (n : Nat) :
    GetIndex n = bucket_index_lookup_.getD (keyOf n) 0 := by
  simp only [GetIndex, keyOf, order_eq_bitLen]

theorem shiftLeft_three (o : Nat) : o <<< kNumBucketsPerOrderBits = 8 * o := by
  rw [Nat.shiftLeft_eq]
  norm_num [kNumBucketsPerOrderBits, Nat.mul_comm]

theorem OrderIndexShift_ge4 (o : Nat) (h : 4 ≤ o) : OrderIndexShift o = o - 4 := by
  rw [OrderIndexShift, if_neg]
  · norm_num [kNumBucketsPerOrderBits]
  · norm_num [kNumBucketsPerOrderBits]; omega

theorem OrderSubIndexMask_ge4 (o : Nat) (h4 : 4 ≤ o) (h64 : o ≤ 64) :
    OrderSubIndexMask o = 2 ^ (o - 4) - 1 := by
  rw [OrderSubIndexMask]
  by_cases h : o = kBitsPerSizeT
  · rw [if_pos h, h]
    decide
  · rw [if_neg h]
    have ho : o < 64 := by simp only [kBitsPerSizeT] at h; omega
    rw [Nat.shiftLeft_eq, Nat.shiftRight_eq_div_pow]
    have hsplit : (1 : Nat) * 2 ^ o = 2 ^ (o - 4) * 2 ^ 4 := by
      rw [Nat.one_mul, ← Nat.pow_add, Nat.sub_add_cancel h4]
    have hpos : 1 ≤ 2 ^ (o - 4) := Nat.one_le_two_pow
    have hrw : (1 : Nat) * 2 ^ o - 1 = 15 + (2 ^ (o - 4) - 1) * 2 ^ 4 := by
      rw [hsplit]; norm_num; omega
    rw [hrw]
    norm_num [kNumBucketsPerOrderBits]
    rw [Nat.add_mul_div_right 15 _ (by norm_num : (0:Nat) < 16)]
    norm_num

theorem OrderSubIndexMask_lt4 (o : Nat) (h : o < 4) : OrderSubIndexMask o = 0 := by
  interval_cases o <;> decide

theorem OrderIndexShift_lt4 (o : Nat) (h : o < 4) : OrderIndexShift o = 0 := by
  rw [OrderIndexShift, if_pos]
  norm_num [kNumBucketsPerOrderBits]
  omega

/-- For sizes of order at least 4 the flat key decomposes as
`8 * order + (q - 8) + bump`, where `q = n / 2^(order-4)` lies in
`[8, 16)` and `bump` records non-zero sub-order bits. -/
theorem keyOf_char_ge4 (n : Nat) (h64 : n < 2 ^ kBitsPerSizeT) (h4 : 4 ≤ bitLen n) :
    keyOf n = 8 * bitLen n + (n / 2 ^ (bitLen n - 4) - 8) +
      (if n % 2 ^ (bitLen n - 4) ≠ 0 then 1 else 0) ∧
    8 ≤ n / 2 ^ (bitLen n - 4) ∧ n / 2 ^ (bitLen n - 4) < 16 := by
  have hn0 : n ≠ 0 := by
    intro h
    rw [h] at h4
    simp [bitLen, bitLenAux_zero] at h4
  have hle64 : bitLen n ≤ 64 := bitLen_le n
  have hlow : 2 ^ (bitLen n - 1) ≤ n := two_pow_pred_le n hn0 h64
  have hhigh : n < 2 ^ bitLen n := bitLen_lt n h64
  have hsplit1 : 2 ^ (bitLen n - 1) = 8 * 2 ^ (bitLen n - 4) := by
    have e : 2 ^ (3 + (bitLen n - 4)) = 8 * 2 ^ (bitLen n - 4) := by
      rw [Nat.pow_add]
    have e2 : 3 + (bitLen n - 4) = bitLen n - 1 := by omega
    rw [e2] at e
    exact e
  have hsplit2 : 2 ^ bitLen n = 16 * 2 ^ (bitLen n - 4) := by
    have e : 2 ^ (4 + (bitLen n - 4)) = 16 * 2 ^ (bitLen n - 4) := by
      rw [Nat.pow_add]
    have e2 : 4 + (bitLen n - 4) = bitLen n := by omega
    rw [e2] at e
    exact e
  have hq8 : 8 ≤ n / 2 ^ (bitLen n - 4) := by
    rw [Nat.le_div_iff_mul_le (Nat.two_pow_pos _)]
    omega
  have hq16 : n / 2 ^ (bitLen n - 4) < 16 := by
    rw [Nat.div_lt_iff_lt_mul (Nat.two_pow_pos _)]
    omega
  refine ⟨?_, hq8, hq16⟩
  rw [keyOf, shiftLeft_three, OrderIndexShift_ge4 _ h4, OrderSubIndexMask_ge4 _ h4 hle64,
    Nat.shiftRight_eq_div_pow, Nat.and_pow_two_sub_one_eq_mod]
  have hand1 : n / 2 ^ (bitLen n - 4) &&& (kNumBucketsPerOrder - 1) =
      n / 2 ^ (bitLen n - 4) % 2 ^ 3 := by
    have e : kNumBucketsPerOrder - 1 = 2 ^ 3 - 1 := by decide
    rw [e, Nat.and_pow_two_sub_one_eq_mod]
  rw [hand1]
  have hmod : n / 2 ^ (bitLen n - 4) % 2 ^ 3 = n / 2 ^ (bitLen n - 4) - 8 := by
    have h8 : (2 : Nat) ^ 3 = 8 := by norm_num
    rw [h8]
    omega
  rw [hmod]

/-- For sizes of order at most 3 (that is, sizes below 8) the flat key is
`8 * order + n`. -/
theorem keyOf_char_lt4 (n : Nat) (h64 : n < 2 ^ kBitsPerSizeT) (h4 : bitLen n < 4) :
    keyOf n = 8 * bitLen n + n := by
  have hhigh : n < 2 ^ bitLen n := bitLen_lt n h64
  have hn8 : n < 8 := by
    have : (2 : Nat) ^ bitLen n ≤ 2 ^ 3 := Nat.pow_le_pow_right (by norm_num) (by omega)
    norm_num at this
    omega
  rw [keyOf, shiftLeft_three, OrderIndexShift_lt4 _ h4, OrderSubIndexMask_lt4 _ h4]
  have hand0 : n &&& 0 = 0 := Nat.and_zero n
  rw [hand0]
  simp only [ne_eq, not_true_eq_false, if_false, Nat.add_zero]
  have e : kNumBucketsPerOrder - 1 = 2 ^ 3 - 1 := by decide
  rw [Nat.shiftRight_zero, e, Nat.and_pow_two_sub_one_eq_mod]
  have h8 : (2 : Nat) ^ 3 = 8 := by norm_num
  rw [h8, Nat.mod_eq_of_lt hn8]

theorem keyOf_lower (n : Nat) : 8 * bitLen n ≤ keyOf n := by
  rw [keyOf, shiftLeft_three]
  omega

theorem keyOf_upper (n : Nat) : keyOf n ≤ 8 * bitLen n + 8 := by
  rw [keyOf, shiftLeft_three]
  have hand : (n >>> OrderIndexShift (bitLen n)) &&& (kNumBucketsPerOrder - 1) ≤ 7 := by
    have e : kNumBucketsPerOrder - 1 = 2 ^ 3 - 1 := by decide
    rw [e, Nat.and_pow_two_sub_one_eq_mod]
    have := Nat.mod_lt (n >>> OrderIndexShift (bitLen n)) (show 0 < 2 ^ 3 by norm_num)
    omega
  split <;> omega

theorem keyOf_le_520 (n : Nat) : keyOf n ≤ 520 := by
  have h1 := keyOf_upper n
  have h2 := bitLen_le n
  simp only [kBitsPerSizeT] at h2
  omega

/-- Monotonicity of the flat key for two sizes of the same order. -/
theorem keyOf_mono_same (n1 n2 : Nat) (h12 : n1 ≤ n2) (h64 : n2 < 2 ^ kBitsPerSizeT)
    (ho : bitLen n1 = bitLen n2) : keyOf n1 ≤ keyOf n2 := by
  have h164 : n1 < 2 ^ kBitsPerSizeT := lt_of_le_of_lt h12 h64
  by_cases h4 : 4 ≤ bitLen n2
  · obtain ⟨e2, hq28, hq216⟩ := keyOf_char_ge4 n2 h64 h4
    obtain ⟨e1, hq18, hq116⟩ := keyOf_char_ge4 n1 h164 (by omega)
    rw [ho] at e1
    rw [e1, e2]
    have hdiv : n1 / 2 ^ (bitLen n2 - 4) ≤ n2 / 2 ^ (bitLen n2 - 4) :=
      Nat.div_le_div_right h12
    rcases Nat.lt_or_ge (n1 / 2 ^ (bitLen n2 - 4)) (n2 / 2 ^ (bitLen n2 - 4)) with hlt | hge
    · rw [ho] at hq18 hq116
      split <;> split <;> omega
    · have hq : n1 / 2 ^ (bitLen n2 - 4) = n2 / 2 ^ (bitLen n2 - 4) := le_antisymm hdiv hge
      have hbump : n1 % 2 ^ (bitLen n2 - 4) ≠ 0 → n2 % 2 ^ (bitLen n2 - 4) ≠ 0 := by
        intro hr1 hr2
        have f1 := Nat.div_add_mod n1 (2 ^ (bitLen n2 - 4))
        have f2 := Nat.div_add_mod n2 (2 ^ (bitLen n2 - 4))
        rw [hq] at f1
        omega
      rw [hq]
      split
      · rename_i hc
        rw [if_pos (hbump hc)]
      · split <;> omega
  · have h41 : bitLen n1 < 4 := by omega
    rw [keyOf_char_lt4 n1 h164 h41, keyOf_char_lt4 n2 h64 (by omega), ho]
    omega

/-- Monotonicity of the flat key over the full `size_t` range. -/
theorem keyOf_mono (n1 n2 : Nat) (h12 : n1 ≤ n2) (h64 : n2 < 2 ^ kBitsPerSizeT) :
    keyOf n1 ≤ keyOf n2 := by
  have hble : bitLen n1 ≤ bitLen n2 := bitLen_mono n1 n2 h12 h64
  rcases Nat.lt_or_ge (bitLen n1) (bitLen n2) with hlt | hge
  · have h1 := keyOf_upper n1
    have h2 := keyOf_lower n2
    omega
  · exact keyOf_mono_same n1 n2 h12 h64 (by omega)

/-! ### Finite facts about the generated tables, checked by `decide` -/

theorem lookupTable_length : bucketLookupTable.length = 521 := by decide

theorem lookupTable_adjacent :
    ∀ k < 520, bucketLookupTable.getD k 0 ≤ bucketLookupTable.getD (k + 1) 0 := by decide

theorem lookupTable_lt_168 : ∀ k < 168, bucketLookupTable.getD k 0 < 136 := by decide

theorem lookupTable_sentinel : ∀ k < 521, 168 ≤ k → bucketLookupTable.getD k 0 = 136 := by
  decide

theorem lookupTable_small : ∀ k < 32, bucketLookupTable.getD k 0 = 0 := by decide

/-- The natural bucket size named by flat key `k` (order `k / 8`,
position `k % 8`): `(k % 8 + 8) * 2 ^ (k / 8 - 4)`. -/
def naiveBucketSize (k : Nat) : Nat := (k % 8 + 8) * 2 ^ (k / 8 - 4)

theorem lookupTable_fits :
    ∀ k < 168, 32 ≤ k →
      naiveBucketSize k ≤ bucketSizesTable.getD (bucketLookupTable.getD k 0) 0 := by decide

theorem bucketSizesTable_zero : bucketSizesTable.getD 0 0 = 8 := by decide

/-- Entry-wise monotone step fact lifted to arbitrary index pairs. -/
theorem getD_mono_of_adjacent (l : List Nat)
    (H : ∀ k, k + 1 < l.length → l.getD k 0 ≤ l.getD (k + 1) 0) (i : Nat) :
    ∀ d, i + d < l.length → l.getD i 0 ≤ l.getD (i + d) 0 := by
  intro d
  induction d with
  | zero => intro _; exact le_refl _
  | succ d ih =>
    intro h
    have h1 : i + d < l.length := by omega
    have h2 : l.getD (i + d) 0 ≤ l.getD (i + d + 1) 0 := H (i + d) (by omega)
    have h3 : i + (d + 1) = i + d + 1 := by omega
    rw [h3]
    exact le_trans (ih h1) h2

theorem lookupTable_mono (i j : Nat) (hij : i ≤ j) (hj : j < 521) :
    bucketLookupTable.getD i 0 ≤ bucketLookupTable.getD j 0 := by
  have e : j = i + (j - i) := by omega
  rw [e]
  exact getD_mono_of_adjacent bucketLookupTable
    (fun k hk => lookupTable_adjacent k (by rw [lookupTable_length] at hk; omega))
    i (j - i) (by rw [lookupTable_length]; omega)

/-- C1.  `SizeToBucketIndex` is monotone over the whole `size_t` range:
larger requests never map to a smaller bucket index.  The index is
computed by `BucketIndexLookup::GetIndex` over the table built by the
`BucketIndexLookup` constructor calling `InitBucketSizes` (which skips
bucket sizes that are not multiples of `kSmallestBucket`). -/
theorem sizeToBucketIndex_monotone (n1 n2 : Nat) (h12 : n1 ≤ n2)
    (h64 : n2 < 2 ^ kBitsPerSizeT) :
    SizeToBucketIndex n1 ≤ SizeToBucketIndex n2 := by
  show GetIndex n1 ≤ GetIndex n2
  rw [GetIndex_eq_keyOf, GetIndex_eq_keyOf, bucket_lookup_eq_table]
  exact lookupTable_mono (keyOf n1) (keyOf n2) (keyOf_mono n1 n2 h12 h64)
    (by have := keyOf_le_520 n2; omega)

/-- Witness for C1 at a concrete pair of sizes. -/
theorem sizeToBucketIndex_monotone_witness :
    SizeToBucketIndex 100 ≤ SizeToBucketIndex 200 :=
  sizeToBucketIndex_monotone 100 200 (by decide) (by decide)

theorem bitLen_ge4_of_ge8 (n : Nat) (h : 8 ≤ n) (h64 : n < 2 ^ kBitsPerSizeT) :
    4 ≤ bitLen n := by
  by_contra hc
  push_neg at hc
  have h1 : n < 2 ^ bitLen n := bitLen_lt n h64
  have h2 : (2 : Nat) ^ bitLen n ≤ 2 ^ 3 := Nat.pow_le_pow_right (by norm_num) (by omega)
  norm_num at h2
  omega

theorem bitLen_le20_of_le (n : Nat) (h : n ≤ 983040) : bitLen n ≤ 20 := by
  have h64 : n < 2 ^ kBitsPerSizeT := by
    have : (983040 : Nat) < 2 ^ kBitsPerSizeT := by norm_num [kBitsPerSizeT]
    omega
  by_contra hc
  push_neg at hc
  have hn0 : n ≠ 0 := by
    intro h0
    rw [h0] at hc
    simp [bitLen, bitLenAux_zero] at hc
  have h1 := two_pow_pred_le n hn0 h64
  have h2 : (2 : Nat) ^ 20 ≤ 2 ^ (bitLen n - 1) := Nat.pow_le_pow_right (by norm_num) (by omega)
  norm_num at h2
  omega

theorem keyOf_le_167 (n : Nat) (h : n ≤ 983040) : keyOf n ≤ 167 := by
  have h64 : n < 2 ^ kBitsPerSizeT := by
    have : (983040 : Nat) < 2 ^ kBitsPerSizeT := by norm_num [kBitsPerSizeT]
    omega
  by_cases h4 : 4 ≤ bitLen n
  · have h20 : bitLen n ≤ 20 := bitLen_le20_of_le n h
    obtain ⟨e, hq8, hq16⟩ := keyOf_char_ge4 n h64 h4
    rcases Nat.lt_or_ge (bitLen n) 20 with h19 | h20e
    · rw [e]
      split <;> omega
    · have ho : bitLen n = 20 := by omega
      rw [ho] at e hq8 hq16
      norm_num at e hq8 hq16
      rw [e]
      split <;> omega
  · push_neg at h4
    rw [keyOf_char_lt4 n h64 h4]
    have h1 : n < 2 ^ bitLen n := bitLen_lt n h64
    have h2 : (2 : Nat) ^ bitLen n ≤ 2 ^ 3 := Nat.pow_le_pow_right (by norm_num) (by omega)
    norm_num at h2
    omega

theorem keyOf_ge_168 (n : Nat) (h : 983040 < n) (h64 : n < 2 ^ kBitsPerSizeT) :
    168 ≤ keyOf n := by
  have h4 : 4 ≤ bitLen n := bitLen_ge4_of_ge8 n (by omega) h64
  have hn0 : n ≠ 0 := by omega
  have h20 : 20 ≤ bitLen n := by
    by_contra hc
    push_neg at hc
    have h1 : n < 2 ^ bitLen n := bitLen_lt n h64
    have h2 : (2 : Nat) ^ bitLen n ≤ 2 ^ 19 := Nat.pow_le_pow_right (by norm_num) (by omega)
    norm_num at h2
    omega
  rcases Nat.lt_or_ge 20 (bitLen n) with h21 | h20e
  · have := keyOf_lower n
    omega
  · have ho : bitLen n = 20 := by omega
    obtain ⟨e, hq8, hq16⟩ := keyOf_char_ge4 n h64 h4
    rw [ho] at e hq8 hq16
    norm_num at e hq8 hq16
    have hhigh : n < 2 ^ bitLen n := bitLen_lt n h64
    rw [ho] at hhigh
    norm_num at hhigh
    rw [e]
    split
    · omega
    · rename_i hc
      push_neg at hc
      omega

/-- C2.  `kMaxBucketed` equals exactly 983040; every size up to it maps
to a normal bucket index strictly below `kNumBuckets`, and every larger
`size_t` size maps to the sentinel index `kNumBuckets` (the bucket that
routes the request to the direct-map path). -/
theorem maxBucketed_boundary :
    kMaxBucketed = 983040 ∧
    (∀ n, n ≤ kMaxBucketed → SizeToBucketIndex n < kNumBuckets) ∧
    (∀ n, kMaxBucketed < n → n < 2 ^ kBitsPerSizeT → SizeToBucketIndex n = kNumBuckets) := by
  refine ⟨by decide, ?_, ?_⟩
  · intro n h
    have h9 : n ≤ 983040 := by
      have e : kMaxBucketed = 983040 := by decide
      omega
    show GetIndex n < kNumBuckets
    rw [GetIndex_eq_keyOf, bucket_lookup_eq_table]
    have e : kNumBuckets = 136 := by decide
    rw [e]
    by_cases h32 : keyOf n < 32
    · rw [lookupTable_small (keyOf n) h32]
      norm_num
    · exact lookupTable_lt_168 (keyOf n) (by have := keyOf_le_167 n h9; omega)
  · intro n h h64
    have h9 : 983040 < n := by
      have e : kMaxBucketed = 983040 := by decide
      omega
    show GetIndex n = kNumBuckets
    rw [GetIndex_eq_keyOf, bucket_lookup_eq_table]
    have e : kNumBuckets = 136 := by decide
    rw [e]
    exact lookupTable_sentinel (keyOf n) (by have := keyOf_le_520 n; omega)
      (keyOf_ge_168 n h9 h64)

/-- Witness for C2 at the boundary sizes. -/
theorem maxBucketed_boundary_witness :
    SizeToBucketIndex 983040 < kNumBuckets ∧ SizeToBucketIndex 983041 = kNumBuckets :=
  ⟨maxBucketed_boundary.2.1 983040 (by decide),
    maxBucketed_boundary.2.2 983041 (by decide) (by decide)⟩

/-- The slot size of the bucket selected by `GetIndex` is at least the
requested (bucketed) size: ceiling behaviour of the lookup, including
the skip to the next multiple of `kSmallestBucket`. -/
theorem bucket_size_fits (n : Nat) (h : n ≤ kMaxBucketed) :
    n ≤ bucket_sizes_.getD (GetIndex n) 0 := by
  have h9 : n ≤ 983040 := by
    have e : kMaxBucketed = 983040 := by decide
    omega
  have h64 : n < 2 ^ kBitsPerSizeT := by
    have : (983040 : Nat) < 2 ^ kBitsPerSizeT := by norm_num [kBitsPerSizeT]
    omega
  rw [GetIndex_eq_keyOf, bucket_lookup_eq_table, bucket_sizes_eq_table]
  by_cases h4 : 4 ≤ bitLen n
  · have hkey32 : 32 ≤ keyOf n := by
      have := keyOf_lower n
      omega
    have hkey167 : keyOf n ≤ 167 := keyOf_le_167 n h9
    refine le_trans ?_ (lookupTable_fits (keyOf n) (by omega) hkey32)
    obtain ⟨e, hq8, hq16⟩ := keyOf_char_ge4 n h64 h4
    have f := Nat.div_add_mod n (2 ^ (bitLen n - 4))
    have hmlt : n % 2 ^ (bitLen n - 4) < 2 ^ (bitLen n - 4) :=
      Nat.mod_lt n (Nat.two_pow_pos _)
    by_cases hb : n % 2 ^ (bitLen n - 4) ≠ 0
    · rw [if_pos hb] at e
      rcases Nat.lt_or_ge (n / 2 ^ (bitLen n - 4)) 15 with hq15 | hq15e
      · have hk8 : keyOf n % 8 = n / 2 ^ (bitLen n - 4) - 8 + 1 := by omega
        have hkd : keyOf n / 8 = bitLen n := by omega
        rw [naiveBucketSize, hk8, hkd]
        have e1 : n / 2 ^ (bitLen n - 4) - 8 + 1 + 8 = n / 2 ^ (bitLen n - 4) + 1 := by
          omega
        rw [e1]
        have expand : (n / 2 ^ (bitLen n - 4) + 1) * 2 ^ (bitLen n - 4) =
            2 ^ (bitLen n - 4) * (n / 2 ^ (bitLen n - 4)) + 2 ^ (bitLen n - 4) := by
          ring
        omega
      · have hq : n / 2 ^ (bitLen n - 4) = 15 := by omega
        have hk8 : keyOf n % 8 = 0 := by omega
        have hkd : keyOf n / 8 - 4 = bitLen n - 3 := by omega
        rw [naiveBucketSize, hk8, hkd]
        have hhigh : n < 2 ^ bitLen n := bitLen_lt n h64
        have epow : 2 ^ (3 + (bitLen n - 3)) = 8 * 2 ^ (bitLen n - 3) := by
          rw [Nat.pow_add]
        have e2 : 3 + (bitLen n - 3) = bitLen n := by omega
        rw [e2] at epow
        omega
    · push_neg at hb
      rw [if_neg (by omega)] at e
      have hk8 : keyOf n % 8 = n / 2 ^ (bitLen n - 4) - 8 := by omega
      have hkd : keyOf n / 8 = bitLen n := by omega
      rw [naiveBucketSize, hk8, hkd]
      have e1 : n / 2 ^ (bitLen n - 4) - 8 + 8 = n / 2 ^ (bitLen n - 4) := by omega
      rw [e1]
      have expand : n / 2 ^ (bitLen n - 4) * 2 ^ (bitLen n - 4) =
          2 ^ (bitLen n - 4) * (n / 2 ^ (bitLen n - 4)) := by
        ring
      omega
  · push_neg at h4
    have hkey : keyOf n = 8 * bitLen n + n := keyOf_char_lt4 n h64 h4
    have h1 : n < 2 ^ bitLen n := bitLen_lt n h64
    have h2 : (2 : Nat) ^ bitLen n ≤ 2 ^ 3 := Nat.pow_le_pow_right (by norm_num) (by omega)
    norm_num at h2
    have h32 : keyOf n < 32 := by omega
    rw [lookupTable_small (keyOf n) h32, bucketSizesTable_zero]
    omega

/-! ### Claim C3: the order and order-index formulas -/

/-- The order computed in step 1 of `GetIndex`:
`kBitsPerSizeT - bits::CountLeadingZeroBitsSizeT(size)`. -/
def allocationOrder (size : Nat) : Nat := kBitsPerSizeT - CountLeadingZeroBitsSizeT size

/-- Ceiling base-2 logarithm, the spec notation `⌈log2 n⌉`; certified by
`ceilLog2_spec` as the least `k` with `n ≤ 2 ^ k`. -/
def ceilLog2 (n : Nat) : Nat := if n ≤ 1 then 0 else bitLen (n - 1)

theorem ceilLog2_spec (n : Nat) (h1 : 1 ≤ n) (h64 : n ≤ 2 ^ kBitsPerSizeT) :
    n ≤ 2 ^ ceilLog2 n ∧ ∀ m, n ≤ 2 ^ m → ceilLog2 n ≤ m := by
  rw [ceilLog2]
  by_cases hn : n ≤ 1
  · rw [if_pos hn]
    have : n = 1 := by omega
    subst this
    exact ⟨by norm_num, fun m _ => Nat.zero_le m⟩
  · rw [if_neg hn]
    push_neg at hn
    have hlt : n - 1 < 2 ^ kBitsPerSizeT := by
      have : (0 : Nat) < 2 ^ kBitsPerSizeT := Nat.two_pow_pos _
      omega
    constructor
    · have := bitLen_lt (n - 1) hlt
      omega
    · intro m hm
      by_contra hc
      push_neg at hc
      have hlow : 2 ^ (bitLen (n - 1) - 1) ≤ n - 1 :=
        two_pow_pred_le (n - 1) (by omega) hlt
      have hmono : (2 : Nat) ^ m ≤ 2 ^ (bitLen (n - 1) - 1) :=
        Nat.pow_le_pow_right (by norm_num) (by omega)
      omega

/-- C3 counterexample: at the power-of-two request size 8, the order
used by `GetIndex` is `64 - clz(8) = 4`, whereas `⌈log2 8⌉ = 3`; the
claimed equality `order = ⌈log2 n⌉` fails there. -/
theorem order_not_ceilLog2_at_8 :
    allocationOrder 8 = 4 ∧ ceilLog2 8 = 3 ∧ allocationOrder 8 ≠ ceilLog2 8 := by decide

/-- C3 (amended).  For every nonzero `size_t` request size `n`, the
order used in step 1 of `GetIndex` is `⌊log2 n⌋ + 1`, i.e. the unique
`k ≥ 1` with `2^(k-1) ≤ n < 2^k` (this agrees with `⌈log2 n⌉` except at
exact powers of two), and the bucket index is read from the flat lookup
table at `(order << kNumBucketsPerOrderBits) + order_index + bump`,
where `order_index = (n >> kOrderIndexShift[order]) & (kNumBucketsPerOrder − 1)`
and `bump` is one exactly when the remaining sub-order bits
`n & kOrderSubIndexMask[order]` are non-zero. -/
theorem order_and_index_formula (n : Nat) (h0 : 0 < n) (h64 : n < 2 ^ kBitsPerSizeT) :
    (1 ≤ allocationOrder n ∧ 2 ^ (allocationOrder n - 1) ≤ n ∧ n < 2 ^ allocationOrder n) ∧
    GetIndex n = bucket_index_lookup_.getD
      ((allocationOrder n <<< kNumBucketsPerOrderBits) +
        ((n >>> OrderIndexShift (allocationOrder n)) &&& (kNumBucketsPerOrder - 1)) +
        (if n &&& OrderSubIndexMask (allocationOrder n) ≠ 0 then 1 else 0)) 0 := by
  have ho : allocationOrder n = bitLen n := order_eq_bitLen n
  refine ⟨⟨?_, ?_, ?_⟩, ?_⟩
  · rw [ho]
    exact bitLen_pos n (by omega)
  · rw [ho]
    exact two_pow_pred_le n (by omega) h64
  · rw [ho]
    exact bitLen_lt n h64
  · rw [ho]
    simpa [keyOf] using GetIndex_eq_keyOf n

/-- Witness for the amended C3 at a concrete size. -/
theorem order_and_index_formula_witness :
    (1 ≤ allocationOrder 41 ∧ 2 ^ (allocationOrder 41 - 1) ≤ 41 ∧ 41 < 2 ^ allocationOrder 41) ∧
    GetIndex 41 = bucket_index_lookup_.getD
      ((allocationOrder 41 <<< kNumBucketsPerOrderBits) +
        ((41 >>> OrderIndexShift (allocationOrder 41)) &&& (kNumBucketsPerOrder - 1)) +
        (if 41 &&& OrderSubIndexMask (allocationOrder 41) ≠ 0 then 1 else 0)) 0 :=
  order_and_index_formula 41 (by decide) (by decide)

/-! ### Claims C4 and C10: usable size and the zero-size bump -/

/-- From `partition_root.h` (`PartitionRoot::AdjustSizeForExtrasAdd`):
`size + extras_size`. -/
def AdjustSizeForExtrasAdd (extras_size size : Nat) : Nat := size + extras_size

/-- From `partition_root.h` (`PartitionRoot::AdjustSizeForExtrasSubtract`):
`size - extras_size`. -/
def AdjustSizeForExtrasSubtract (extras_size size : Nat) : Nat := size - extras_size

/-- From `partition_root.h` (`PartitionRoot::AdjustPointerForExtrasAdd`):
pointers are modelled as numeric addresses, so this is `ptr + extras_offset`. -/
def AdjustPointerForExtrasAdd (extras_offset ptr : Nat) : Nat := ptr + extras_offset

/-- From `partition_root.h` (`PartitionRoot::GetDirectMapSlotSize`):
`bits::Align(raw_size, SystemPageSize())`.  `bits::Align` (in
`base/bits.h`, absent from the sources) rounds up to the next multiple
of the power-of-two alignment, here written arithmetically. -/
def GetDirectMapSlotSize (raw_size : Nat) : Nat :=
  (raw_size + SystemPageSize - 1) / SystemPageSize * SystemPageSize

/-- From `partition_root.h` (`PartitionRoot::AllocFlagsNoHooks`, size
adjustment): under `ENABLE_REF_COUNT_FOR_BACKUP_REF_PTR` a zero-size
request is bumped to raw size 1, and then
`raw_size = AdjustSizeForExtrasAdd(raw_size)`. -/
def allocRawSize (refCountEnabled : Bool) (extras_size requested_size : Nat) : Nat :=
  let raw_size :=
    if refCountEnabled then (if requested_size = 0 then 1 else requested_size)
    else requested_size
  AdjustSizeForExtrasAdd extras_size raw_size

/-- The utilized slot size reported by the allocation path for a given
raw size.  For bucketed sizes this is the slot size of the chosen bucket
(`AllocFromBucket` fast path sets `utilized_slot_size = bucket->slot_size`,
and for a normal slot span `GetUtilizedSlotSize()` is the same value);
for larger sizes it is the direct-map slot size.  Modelled from the
spec for the parts in `partition_bucket.cc` / `partition_page.h`
(absent from the sources): bucket `i` carries the slot size
`bucket_sizes_[i]` generated by `InitBucketSizes`, and a direct-map
utilized size of the span is `GetDirectMapSlotSize(raw_size)`. -/
def utilizedSlotSize (raw_size : Nat) : Nat :=
  if raw_size ≤ kMaxBucketed then bucket_sizes_.getD (GetIndex raw_size) 0
  else GetDirectMapSlotSize raw_size

/-- From `partition_root.h` (`PartitionRoot::GetUsableSize`): the
utilized slot size of the span, adjusted back by subtracting extras. -/
def GetUsableSize (extras_size utilized_slot_size : Nat) : Nat :=
  AdjustSizeForExtrasSubtract extras_size utilized_slot_size

theorem directMapSlotSize_ge (raw : Nat) : raw ≤ GetDirectMapSlotSize raw := by
  rw [GetDirectMapSlotSize]
  simp only [SystemPageSize]
  have h1 := Nat.div_add_mod (raw + 4096 - 1) 4096
  have h2 : (raw + 4096 - 1) % 4096 < 4096 := Nat.mod_lt _ (by norm_num)
  omega

theorem allocRawSize_ge (refCountEnabled : Bool) (extras_size requested_size : Nat) :
    requested_size + extras_size ≤ allocRawSize refCountEnabled extras_size requested_size := by
  simp only [allocRawSize, AdjustSizeForExtrasAdd]
  cases refCountEnabled
  · simp
  · simp only [if_true]
    split <;> omega

/-- C4.  For every request size and extras configuration whose raw size
is within the direct-map cap, the utilized slot size chosen by the
allocation path is at least the extras-adjusted raw size, `GetUsableSize`
returns that utilized slot size minus `extras_size`, and consequently
the usable size of the returned allocation is at least the requested
size (`GetUsableSize(p) ≥ n` for `p = Alloc(n)`). -/
theorem alloc_usable_size_ge (requested_size extras_size : Nat) (refCountEnabled : Bool)
    (_hcap : allocRawSize refCountEnabled extras_size requested_size ≤ MaxDirectMapped) :
    allocRawSize refCountEnabled extras_size requested_size ≤
      utilizedSlotSize (allocRawSize refCountEnabled extras_size requested_size) ∧
    GetUsableSize extras_size
        (utilizedSlotSize (allocRawSize refCountEnabled extras_size requested_size)) =
      utilizedSlotSize (allocRawSize refCountEnabled extras_size requested_size) - extras_size ∧
    requested_size ≤
      GetUsableSize extras_size
        (utilizedSlotSize (allocRawSize refCountEnabled extras_size requested_size)) := by
  have hge := allocRawSize_ge refCountEnabled extras_size requested_size
  have hut : allocRawSize refCountEnabled extras_size requested_size ≤
      utilizedSlotSize (allocRawSize refCountEnabled extras_size requested_size) := by
    rw [utilizedSlotSize]
    split
    · rename_i hb
      exact bucket_size_fits _ hb
    · exact directMapSlotSize_ge _
  refine ⟨hut, rfl, ?_⟩
  rw [GetUsableSize, AdjustSizeForExtrasSubtract]
  omega

/-- Witness for C4 at a concrete request. -/
theorem alloc_usable_size_ge_witness :
    allocRawSize true 8 100 ≤ utilizedSlotSize (allocRawSize true 8 100) ∧
    GetUsableSize 8 (utilizedSlotSize (allocRawSize true 8 100)) =
      utilizedSlotSize (allocRawSize true 8 100) - 8 ∧
    100 ≤ GetUsableSize 8 (utilizedSlotSize (allocRawSize true 8 100)) :=
  alloc_usable_size_ge 100 8 true (by decide)

/-- C10.  With per-slot reference counting enabled, a zero-size request
is bumped to raw size 1 before extras are added, so the pointer
returned for `Alloc(0)` (slot start advanced by `extras_offset`) lies
strictly inside the slot: it is strictly below the end of the slot
`slot_start + slot_size`, hence never equal to or past the start of the
next slot. -/
theorem alloc_zero_strictly_inside_slot (extras_size extras_offset slot_start : Nat)
    (hoff : extras_offset ≤ extras_size)
    (hsmall : 1 + extras_size ≤ kMaxBucketed) :
    allocRawSize true extras_size 0 = 1 + extras_size ∧
    AdjustPointerForExtrasAdd extras_offset slot_start <
      slot_start + bucket_sizes_.getD (GetIndex (allocRawSize true extras_size 0)) 0 := by
  have e : allocRawSize true extras_size 0 = 1 + extras_size := by
    simp [allocRawSize, AdjustSizeForExtrasAdd]
    try omega
  refine ⟨e, ?_⟩
  have hfit := bucket_size_fits (allocRawSize true extras_size 0) (by omega)
  rw [AdjustPointerForExtrasAdd]
  omega

/-- Witness for C10 with an 8-byte reference count as the only extra. -/
theorem alloc_zero_strictly_inside_slot_witness :
    allocRawSize true 8 0 = 1 + 8 ∧
    AdjustPointerForExtrasAdd 8 4096 <
      4096 + bucket_sizes_.getD (GetIndex (allocRawSize true 8 0)) 0 :=
  alloc_zero_strictly_inside_slot 8 8 4096 (by decide) (by decide)

/-! ### Claim C5: zero-fill -/

/-- From `partition_root.h` (`PartitionRoot::AllocFlagsNoHooks`,
zero-fill step, release build): when `PartitionAllocZeroFill` is not
requested nothing is written; when requested, `memset(ret, 0,
usable_size)` runs unless the path reported `is_already_zeroed`.  The
usable region is modelled as the list of its byte values. -/
def zeroFillRegion (zero_fill is_already_zeroed : Bool) (data : List Nat) : List Nat :=
  if !zero_fill then data
  else if !is_already_zeroed then List.replicate data.length 0
  else data

/-- C5.  Under the `ZeroFill` flag, and assuming freshly committed pages
read as zero (the only situation where the allocation path reports
`is_already_zeroed`; OS-guaranteed, modelled from the spec), every byte
of the returned usable region is zero; moreover the explicit memset is
skipped exactly when `is_already_zeroed` is reported, and performed
otherwise. -/
theorem zero_fill_all_zero (is_already_zeroed : Bool) (data : List Nat)
    (hzeroed : is_already_zeroed = true → ∀ b ∈ data, b = 0) :
    (∀ b ∈ zeroFillRegion true is_already_zeroed data, b = 0) ∧
    (is_already_zeroed = true → zeroFillRegion true is_already_zeroed data = data) ∧
    (is_already_zeroed = false →
      zeroFillRegion true is_already_zeroed data = List.replicate data.length 0) := by
  cases is_already_zeroed
  · refine ⟨?_, by simp, fun _ => rfl⟩
    simp only [zeroFillRegion, Bool.not_true, Bool.not_false, if_false, if_true]
    intro b hb
    exact List.eq_of_mem_replicate hb
  · exact ⟨hzeroed rfl, fun _ => rfl, by simp⟩

/-- Witness for C5: a dirty region is fully zeroed. -/
theorem zero_fill_all_zero_witness :
    (∀ b ∈ zeroFillRegion true false [7, 7], b = 0) ∧
    (false = true → zeroFillRegion true false [7, 7] = [7, 7]) ∧
    (false = false →
      zeroFillRegion true false [7, 7] = List.replicate (List.length [7, 7]) 0) :=
  zero_fill_all_zero false [7, 7] (by simp)

/-! ### Claim C6: aligned allocation -/

/-- Outcome of an allocation entry point: `crash` models a failed
`PA_CHECK` aborting the process. -/
inductive AllocOutcome where
  | crash : AllocOutcome
  | null : AllocOutcome
  | ptr (p : Nat) : AllocOutcome
deriving DecidableEq

/-- Modelled from the spec: `base::bits::IsPowerOfTwo(value)` is
`value > 0 && (value & (value - 1)) == 0` (`base/bits.h` is absent from
the sources). -/
def IsPowerOfTwo (n : Nat) : Bool := decide (0 < n) && decide (n &&& (n - 1) = 0)

theorem isPowerOfTwo_pow (j : Nat) : IsPowerOfTwo (2 ^ j) = true := by
  rw [IsPowerOfTwo]
  simp [Nat.two_pow_pos, Nat.and_pow_two_sub_one_eq_mod]

/-- From `partition_root.h` (`PartitionRoot::AlignedAllocFlags`): the
request forwarded to the regular path.  When `size < alignment` it is
`alignment`; otherwise
`1 << (sizeof(size_t) * 8 - CountLeadingZeroBits(size - 1))`, reduced
modulo `2^64` where the C++ shift would leave the 64-bit range. -/
def alignedRequestSize (alignment size : Nat) : Nat :=
  if size < alignment then alignment
  else (1 <<< (kBitsPerSizeT - CountLeadingZeroBitsSizeT (size - 1))) % 2 ^ kBitsPerSizeT

/-- From `partition_root.h` (`PartitionRoot::AlignedAllocFlags`):
`PA_CHECK(IsPowerOfTwo(alignment))`; compute the enlarged request;
on overflow return null under `PartitionAllocReturnNull` or abort;
delegate to the regular allocation path (the oracle `alloc`, `none`
standing for a null result — for which the final check passes, since
`0 & mask = 0`); finally `PA_CHECK(!(ptr & (alignment - 1)))`. -/
def AlignedAllocFlags (returnNull : Bool) (alignment size : Nat)
    (alloc : Nat → Option Nat) : AllocOutcome :=
  if !IsPowerOfTwo alignment then AllocOutcome.crash
  else
    let requested_size := alignedRequestSize alignment size
    if requested_size < size then
      (if returnNull then AllocOutcome.null else AllocOutcome.crash)
    else
      match alloc requested_size with
      | none => AllocOutcome.null
      | some p =>
        if p &&& (alignment - 1) ≠ 0 then AllocOutcome.crash else AllocOutcome.ptr p

theorem bitLen_le_of_lt (n m : Nat) (hm : m ≤ kBitsPerSizeT) (h : n < 2 ^ m) :
    bitLen n ≤ m := by
  by_cases hn : n = 0
  · simp [hn, bitLen, bitLenAux_zero]
  by_contra hc
  push_neg at hc
  have h1 := two_pow_pred_le n hn
    (lt_of_lt_of_le h (Nat.pow_le_pow_right (by norm_num) hm))
  have h2 : (2 : Nat) ^ m ≤ 2 ^ (bitLen n - 1) :=
    Nat.pow_le_pow_right (by norm_num) (by omega)
  omega

/-- For `alignment ≤ size ≤ 2^63` the enlarged request is
`2 ^ bitLen (size - 1)` exactly (the modulo reduction is the identity). -/
theorem alignedRequestSize_of_ge (alignment size : Nat) (hge : alignment ≤ size)
    (h1 : 1 ≤ size) (h63 : size ≤ 2 ^ 63) :
    alignedRequestSize alignment size = 2 ^ bitLen (size - 1) := by
  rw [alignedRequestSize, if_neg (by omega)]
  rw [order_eq_bitLen (size - 1), Nat.shiftLeft_eq, Nat.one_mul]
  have hlt : size - 1 < 2 ^ 63 := by
    have : (0 : Nat) < 2 ^ 63 := Nat.two_pow_pos _
    omega
  have hb : bitLen (size - 1) ≤ 63 := bitLen_le_of_lt (size - 1) 63 (by norm_num [kBitsPerSizeT]) hlt
  apply Nat.mod_eq_of_lt
  calc (2 : Nat) ^ bitLen (size - 1) ≤ 2 ^ 63 := Nat.pow_le_pow_right (by norm_num) hb
  _ < 2 ^ kBitsPerSizeT := by norm_num [kBitsPerSizeT]

/-- C6.  For every power-of-two alignment `2^j` and every size (nonzero,
within the `size_t`-safe half range), any pointer returned by
`AlignedAllocFlags` satisfies `ptr mod alignment = 0`; internally the
request is enlarged to the alignment when `size < alignment`, and
otherwise rounded up to the least power of two that is at least `size`,
before being passed to the normal allocation path. -/
theorem aligned_alloc_aligned (returnNull : Bool) (j size : Nat)
    (alloc : Nat → Option Nat) (h1 : 1 ≤ size) (h63 : size ≤ 2 ^ 63) :
    (∀ p, AlignedAllocFlags returnNull (2 ^ j) size alloc = AllocOutcome.ptr p →
      p % 2 ^ j = 0) ∧
    (size < 2 ^ j → alignedRequestSize (2 ^ j) size = 2 ^ j) ∧
    (2 ^ j ≤ size →
      size ≤ alignedRequestSize (2 ^ j) size ∧
      (∃ k, alignedRequestSize (2 ^ j) size = 2 ^ k) ∧
      ∀ m, size ≤ 2 ^ m → alignedRequestSize (2 ^ j) size ≤ 2 ^ m) := by
  refine ⟨?_, ?_, ?_⟩
  · intro p hp
    rw [AlignedAllocFlags] at hp
    rw [isPowerOfTwo_pow] at hp
    simp only [Bool.not_true, Bool.false_eq_true, if_false] at hp
    by_cases hreq : alignedRequestSize (2 ^ j) size < size
    · rw [if_pos hreq] at hp
      cases returnNull <;> simp at hp
    · rw [if_neg hreq] at hp
      cases halloc : alloc (alignedRequestSize (2 ^ j) size) with
      | none => rw [halloc] at hp; cases hp
      | some q =>
        rw [halloc] at hp
        dsimp only at hp
        by_cases hal : q &&& (2 ^ j - 1) ≠ 0
        · rw [if_pos hal] at hp; cases hp
        · rw [if_neg hal] at hp
          cases hp
          push_neg at hal
          rwa [Nat.and_pow_two_sub_one_eq_mod] at hal
  · intro hlt
    rw [alignedRequestSize, if_pos hlt]
  · intro hge
    rw [alignedRequestSize_of_ge (2 ^ j) size hge h1 h63]
    have hlt : size - 1 < 2 ^ kBitsPerSizeT := by
      have h2 : (2 : Nat) ^ 63 < 2 ^ kBitsPerSizeT := by norm_num [kBitsPerSizeT]
      omega
    refine ⟨?_, ⟨bitLen (size - 1), rfl⟩, ?_⟩
    · have := bitLen_lt (size - 1) hlt
      omega
    · intro m hm
      rcases le_or_lt m kBitsPerSizeT with hm64 | hm64
      · have hb : bitLen (size - 1) ≤ m := bitLen_le_of_lt (size - 1) m hm64 (by omega)
        exact Nat.pow_le_pow_right (by norm_num) hb
      · calc (2 : Nat) ^ bitLen (size - 1) ≤ 2 ^ kBitsPerSizeT :=
          Nat.pow_le_pow_right (by norm_num) (bitLen_le _)
        _ ≤ 2 ^ m := Nat.pow_le_pow_right (by norm_num) (by omega)

/-- Witness for C6: 64-byte alignment with a 16-byte request. -/
theorem aligned_alloc_aligned_witness :
    (∀ p, AlignedAllocFlags false (2 ^ 6) 16 (fun _ => some 128) = AllocOutcome.ptr p →
      p % 2 ^ 6 = 0) ∧
    (16 < 2 ^ 6 → alignedRequestSize (2 ^ 6) 16 = 2 ^ 6) ∧
    (2 ^ 6 ≤ 16 →
      16 ≤ alignedRequestSize (2 ^ 6) 16 ∧
      (∃ k, alignedRequestSize (2 ^ 6) 16 = 2 ^ k) ∧
      ∀ m, 16 ≤ 2 ^ m → alignedRequestSize (2 ^ 6) 16 ≤ 2 ^ m) :=
  aligned_alloc_aligned false 6 16 (fun _ => some 128) (by decide) (by decide)

/-! ### Claim C7: oversized requests and raw-size overflow -/

/-- Outcome of the size-limit checks on the allocation path; `proceed`
carries the raw size the allocator continues with. -/
inductive SizeCheckOutcome where
  | crash : SizeCheckOutcome
  | null : SizeCheckOutcome
  | proceed (raw_size : Nat) : SizeCheckOutcome
deriving DecidableEq

/-- From `partition_root.h` (`PartitionRoot::AllocFlagsNoHooks`): the
request size after the zero-size bump, before extras are added. -/
def allocBumpedSize (refCountEnabled : Bool) (requested_size : Nat) : Nat :=
  if refCountEnabled then (if requested_size = 0 then 1 else requested_size)
  else requested_size

/-- From `partition_root.h`: the size-limit checks on the allocation
path.  `raw_size = AdjustSizeForExtrasAdd(raw_size)` wraps like
`size_t`; the release-mode `PA_CHECK(raw_size >= requested_size)` in
`AllocFlagsNoHooks` aborts on overflow.  A raw size beyond
`MaxDirectMapped()` is rejected on the direct-map route exactly as in
the `CHECK_MAX_SIZE_OR_RETURN_NULLPTR` macro of `partition_root.h`:
null under `PartitionAllocReturnNull`, otherwise `PA_CHECK(false)`
(that rejection sits in the slow path outside these sources; modelled
from the spec). -/
def allocSizeCheck (returnNull refCountEnabled : Bool)
    (extras_size requested_size : Nat) : SizeCheckOutcome :=
  let raw_size :=
    (allocBumpedSize refCountEnabled requested_size + extras_size) % 2 ^ kBitsPerSizeT
  if raw_size < requested_size then SizeCheckOutcome.crash
  else if MaxDirectMapped < raw_size then
    (if returnNull then SizeCheckOutcome.null else SizeCheckOutcome.crash)
  else SizeCheckOutcome.proceed raw_size

/-- C7 counterexample: with `ReturnNull` set, one byte of extras and the
maximal `size_t` request, `raw_size = size + extras` overflows (wraps to
0) and the unconditional `PA_CHECK(raw_size >= requested_size)` aborts —
the operation does not return null as the claim states. -/
theorem overflow_crashes_despite_returnNull :
    2 ^ kBitsPerSizeT ≤ (2 ^ kBitsPerSizeT - 1) + 1 ∧
    allocSizeCheck true false 1 (2 ^ kBitsPerSizeT - 1) = SizeCheckOutcome.crash ∧
    allocSizeCheck true false 1 (2 ^ kBitsPerSizeT - 1) ≠ SizeCheckOutcome.null := by
  refine ⟨by omega, by decide, by decide⟩

theorem allocBumpedSize_ge (refCountEnabled : Bool) (requested_size : Nat) :
    requested_size ≤ allocBumpedSize refCountEnabled requested_size ∧
    allocBumpedSize refCountEnabled requested_size ≤ requested_size + 1 := by
  rw [allocBumpedSize]
  cases refCountEnabled
  · simp
  · simp only [if_true]
    split <;> omega

/-- C7 (amended).  If computing `raw_size = size + extras` overflows
`size_t`, the process aborts regardless of `ReturnNull`; if the sum does
not overflow but exceeds `MaxDirectMapped`, the operation returns null
when `ReturnNull` is set and aborts otherwise; and whenever the checks
let the allocation proceed, the raw size is the exact (unwrapped) sum
and is within the cap — the allocator never returns a pointer for an
oversized request and never silently wraps the size. -/
theorem oversized_request_rejected (returnNull refCountEnabled : Bool)
    (extras_size requested_size : Nat)
    (hex : extras_size < 2 ^ 32) (hreq : requested_size < 2 ^ kBitsPerSizeT) :
    (2 ^ kBitsPerSizeT ≤ allocBumpedSize refCountEnabled requested_size + extras_size →
      allocSizeCheck returnNull refCountEnabled extras_size requested_size =
        SizeCheckOutcome.crash) ∧
    (allocBumpedSize refCountEnabled requested_size + extras_size < 2 ^ kBitsPerSizeT →
      MaxDirectMapped < allocBumpedSize refCountEnabled requested_size + extras_size →
      allocSizeCheck returnNull refCountEnabled extras_size requested_size =
        (if returnNull then SizeCheckOutcome.null else SizeCheckOutcome.crash)) ∧
    (∀ raw_size,
      allocSizeCheck returnNull refCountEnabled extras_size requested_size =
        SizeCheckOutcome.proceed raw_size →
      raw_size = allocBumpedSize refCountEnabled requested_size + extras_size ∧
      raw_size ≤ MaxDirectMapped) := by
  obtain ⟨hb1, hb2⟩ := allocBumpedSize_ge refCountEnabled requested_size
  have e64 : (2 : Nat) ^ kBitsPerSizeT = 18446744073709551616 := by
    norm_num [kBitsPerSizeT]
  have e32 : (2 : Nat) ^ 32 = 4294967296 := by norm_num
  rw [e64] at hreq
  rw [e32] at hex
  have ecap : MaxDirectMapped = 2147483648 := by decide
  refine ⟨?_, ?_, ?_⟩
  · intro hov
    rw [e64] at hov
    rw [allocSizeCheck, e64]
    rw [if_pos (by omega)]
  · intro hnov hcap
    rw [e64] at hnov
    rw [ecap] at hcap
    rw [allocSizeCheck, e64]
    rw [if_neg (by omega), if_pos (by rw [ecap]; omega)]
  · intro raw_size hp
    rw [allocSizeCheck, e64] at hp
    by_cases h1 : (allocBumpedSize refCountEnabled requested_size + extras_size) %
        18446744073709551616 < requested_size
    · rw [if_pos h1] at hp
      cases hp
    · rw [if_neg h1] at hp
      by_cases h2 : MaxDirectMapped <
          (allocBumpedSize refCountEnabled requested_size + extras_size) %
            18446744073709551616
      · rw [if_pos h2] at hp
        cases returnNull <;> simp at hp
      · rw [if_neg h2] at hp
        cases hp
        rw [ecap] at h2
        refine ⟨by omega, ?_⟩
        rw [ecap]
        omega

/-- Witness for the amended C7: a request just above `MaxDirectMapped`
with `ReturnNull` set returns null. -/
theorem oversized_request_rejected_witness :
    allocSizeCheck true false 0 2147483649 = SizeCheckOutcome.null := by
  have h := (oversized_request_rejected true false 0 2147483649
    (by decide) (by decide)).2.1 (by decide) (by decide)
  simpa using h

/-! ### Claim C8: Free(nullptr) is a no-op -/

/-- Observable steps of the deallocation path. -/
inductive FreeStep where
  | observer_hook : FreeStep
  | override_hook : FreeStep
  | metadata_lookup : FreeStep
deriving DecidableEq

/-- From `partition_root.h` (`PartitionRoot::FreeNoHooks`): a null
pointer returns immediately; otherwise the slot span is recovered from
the pointer (`SlotSpan::FromPointerNoAlignmentCheck`, a metadata
lookup) and the free proceeds — the rest of the path (quarantine or
`FreeNoHooksImmediate`) is the oracle `freeRest`, since the span
machinery lives outside these sources. -/
def FreeNoHooks {σ : Type} (freeRest : Nat → σ → σ × List FreeStep)
    (ptr : Option Nat) (st : σ) : σ × List FreeStep :=
  match ptr with
  | none => (st, [])
  | some p =>
    let r := freeRest p st
    (r.1, FreeStep.metadata_lookup :: r.2)

/-- From `partition_root.h` (`PartitionRoot::Free`): a null pointer
returns immediately — before the hook checks; with hooks enabled the
free-observer hook runs and the free-override hook may short-circuit;
otherwise the call falls through to `FreeNoHooks`. -/
def Free {σ : Type} (hooksEnabled overrideHandles : Bool)
    (freeRest : Nat → σ → σ × List FreeStep)
    (ptr : Option Nat) (st : σ) : σ × List FreeStep :=
  match ptr with
  | none => (st, [])
  | some p =>
    if hooksEnabled then
      if overrideHandles then (st, [FreeStep.observer_hook, FreeStep.override_hook])
      else
        let r := FreeNoHooks freeRest (some p) st
        (r.1, FreeStep.observer_hook :: FreeStep.override_hook :: r.2)
    else FreeNoHooks freeRest (some p) st

/-- C8.  `Free(nullptr)` and `FreeNoHooks(nullptr)` are no-ops: the
partition state is unchanged and no free hook is invoked, no metadata
lookup is performed, and no further free step runs. -/
theorem free_null_noop {σ : Type} (hooksEnabled overrideHandles : Bool)
    (freeRest : Nat → σ → σ × List FreeStep) (st : σ) :
    Free hooksEnabled overrideHandles freeRest none st = (st, []) ∧
    FreeNoHooks freeRest none st = (st, []) :=
  ⟨rfl, rfl⟩

/-! ### Claim C9: the `inverted_self` integrity token -/

/-- Bitwise NOT of a 64-bit address, i.e.
`~reinterpret_cast<uintptr_t>(root)`. -/
def invertedOf (address : Nat) : Nat := (2 ^ kBitsPerSizeT - 1) ^^^ address

/-- The fields of `PartitionRoot` relevant to the integrity check: the
own address of the root and the stored `inverted_self` token
(`partition_root.h`: `uintptr_t inverted_self`). -/
structure RootModel where
  address : Nat
  inverted_self : Nat
deriving DecidableEq

/-- Modelled from the spec: `PartitionRoot::Init` (in
`partition_root.cc`, absent from the sources) sets
`inverted_self = ~reinterpret_cast<uintptr_t>(this)`, as the field
comment in `partition_root.h` states. -/
def initRoot (address : Nat) : RootModel :=
  { address := address, inverted_self := invertedOf address }

/-- From `partition_root.h` (`PartitionRoot::IsValidSlotSpan`): recover
the root from the super-page extent entry of the slot span (`FromSlotSpan`,
the oracle `fromSlotSpan`) and test
`root->inverted_self == ~reinterpret_cast<uintptr_t>(root)`. -/
def IsValidSlotSpan {Span : Type} (fromSlotSpan : Span → RootModel)
    (slot_span : Span) : Bool :=
  (fromSlotSpan slot_span).inverted_self ==
    invertedOf (fromSlotSpan slot_span).address

/-- From `partition_root.h` (`PartitionRoot::FromSuperPage`): read the
root from the metadata area of the super page and `PA_DCHECK` the same
equality; the check is modelled as a guard, `none` standing for the
failed check. -/
def FromSuperPage (extent_root : RootModel) : Option RootModel :=
  if extent_root.inverted_self == invertedOf extent_root.address then
    some extent_root
  else none

/-- C9.  An initialized root stores `inverted_self` equal to the
bitwise NOT of its own address; `IsValidSlotSpan` returns true if and
only if the root recovered from the super-page metadata of the slot span
satisfies `inverted_self = ~address`; and `FromSuperPage` checks
exactly the same equality. -/
theorem inverted_self_integrity :
    (∀ address, (initRoot address).inverted_self = invertedOf address) ∧
    (∀ (Span : Type) (fromSlotSpan : Span → RootModel) (slot_span : Span),
      IsValidSlotSpan fromSlotSpan slot_span = true ↔
        (fromSlotSpan slot_span).inverted_self =
          invertedOf (fromSlotSpan slot_span).address) ∧
    (∀ root : RootModel,
      FromSuperPage root = some root ↔
        root.inverted_self = invertedOf root.address) := by
  refine ⟨fun _ => rfl, ?_, ?_⟩
  · intro Span fromSlotSpan slot_span
    rw [IsValidSlotSpan]
    exact beq_iff_eq
  · intro root
    rw [FromSuperPage]
    constructor
    · intro h
      by_contra hc
      rw [if_neg (by simpa using hc)] at h
      cases h
    · intro h
      rw [if_pos (by simpa using h)]
